import Mathlib

/-
Shallow embedding of the builtin-evaluation core of libminizinc
(src/lib/builtins.cpp), together with proofs settling the spec claims.

Conventions of the embedding:
* MiniZinc `IntVal` finite values are modelled as unbounded `Int`; the
  checked-overflow sentinels `IntVal::maxint()` / `IntVal::minint()` are
  modelled as the extreme finite 64-bit values (their exact magnitude is
  irrelevant to every theorem below).
* MiniZinc `FloatVal` (a wrapped `double`) is modelled as `ℚ`: the claims
  about float builtins proved here depend only on the linear order of the
  values, never on rounding.
* A C++ function that can `throw` is modelled as returning `Except EvalErr`,
  with the two exception classes relevant to the claims distinguished.
* A materialized `ArrayLit` of scalars is modelled as a `List` of its
  elements in row-major order, plus (where needed) the per-axis (min,max)
  index metadata.
-/

namespace MiniZinc

/-- Error outcomes of builtin evaluation: `EvalError` and
`ResultUndefinedError` are distinct C++ exception classes thrown by the
builtins; the payload is the message text. -/
inductive EvalErr where
  | evalError (msg : String)
  | resultUndefined (msg : String)
deriving DecidableEq, Repr

/-- True exactly when an evaluation outcome is a `ResultUndefinedError`. -/
def raisesResultUndefined {α : Type} : Except EvalErr α → Bool
  | .error (.resultUndefined _) => true
  | _ => false

/-- One-argument `min` on a materialized integer array (`b_int_min`,
src/lib/builtins.cpp:86): an empty array throws `ResultUndefinedError`,
otherwise the result is the fold of `std::min` over the elements starting
from the first. -/
def b_int_min (al : List Int) : Except EvalErr Int :=
  match al with
  | [] => .error (.resultUndefined "minimum of empty array is undefined")
  | x :: xs => .ok (xs.foldl min x)

/-- One-argument `max` on a materialized integer array (`b_int_max`,
src/lib/builtins.cpp:110). -/
def b_int_max (al : List Int) : Except EvalErr Int :=
  match al with
  | [] => .error (.resultUndefined "maximum of empty array is undefined")
  | x :: xs => .ok (xs.foldl max x)

/-- One-argument `min` on a materialized float array (`b_float_min`,
src/lib/builtins.cpp:564): an empty array throws `EvalError` (not
`ResultUndefinedError`), otherwise the fold of `std::min`. -/
def b_float_min (al : List ℚ) : Except EvalErr ℚ :=
  match al with
  | [] => .error (.evalError "min on empty array undefined")
  | x :: xs => .ok (xs.foldl min x)

/-- One-argument `max` on a materialized float array (`b_float_max`,
src/lib/builtins.cpp:588). -/
def b_float_max (al : List ℚ) : Except EvalErr ℚ :=
  match al with
  | [] => .error (.evalError "max on empty array undefined")
  | x :: xs => .ok (xs.foldl max x)

/-- Integer `sum` (`b_sum_int`, src/lib/builtins.cpp:392): an empty array
returns 0, otherwise a running accumulator starting at 0 adds every
element left to right. -/
def b_sum_int (al : List Int) : Int :=
  match al with
  | [] => 0
  | l => l.foldl (fun m x => m + x) 0

/-- Integer `product` (`b_product_int`, src/lib/builtins.cpp:404): an empty
array returns 1, otherwise a running accumulator starting at 1 multiplies
every element left to right. -/
def b_product_int (al : List Int) : Int :=
  match al with
  | [] => 1
  | l => l.foldl (fun m x => m * x) 1

/-- C2: integer one-argument `min`/`max` on an empty array raise
`ResultUndefinedError`, but the float variants raise a plain `EvalError`;
the empty float array is a counterexample to the claim that all four raise
ResultUndefined. -/
theorem b_float_min_empty_not_resultUndefined :
    b_float_min [] = .error (.evalError "min on empty array undefined") ∧
    raisesResultUndefined (b_float_min []) = false ∧
    raisesResultUndefined (b_float_max []) = false := by
  refine ⟨rfl, rfl, rfl⟩

/-- C2 (amended): on an empty array argument, the integer one-argument
`min`/`max` raise `ResultUndefinedError` while the float one-argument
`min`/`max` raise `EvalError`, with the messages written in the source. -/
theorem empty_min_max_error_kinds :
    b_int_min [] = .error (.resultUndefined "minimum of empty array is undefined") ∧
    b_int_max [] = .error (.resultUndefined "maximum of empty array is undefined") ∧
    b_float_min [] = .error (.evalError "min on empty array undefined") ∧
    b_float_max [] = .error (.evalError "max on empty array undefined") := by
  refine ⟨rfl, rfl, rfl, rfl⟩

/-- C5: `sum` is the left fold of addition with identity 0 and `product`
the left fold of multiplication with identity 1, on every integer array
including the empty one. -/
theorem sum_product_are_folds (al : List Int) :
    b_sum_int al = al.foldl (· + ·) 0 ∧ b_product_int al = al.foldl (· * ·) 1 := by
  cases al with
  | nil => exact ⟨rfl, rfl⟩
  | cons x xs => exact ⟨rfl, rfl⟩

/-- Literal payloads that the fixed-value resolver recognizes as fixed
domains (`IntLit`, `BoolLit`, `FloatLit`). -/
inductive Lit where
  | int (v : Int)
  | bool (b : Bool)
  | float (v : ℚ)
deriving DecidableEq, Repr

/-- Expression forms distinguished by `exp_is_fixed`
(src/lib/builtins.cpp:1100) after `eval_par`.  The C++ loop first checks
`cur->type().ispar()`, so a node is either already a `par` constant, an
identifier chasing to its declaration, a `var`-typed declaration (set-typed
flag, optional literal domain, optional initializer — a non-literal domain
expression behaves exactly like an absent one for this resolver and is
modelled as `none`), or some other `var`-typed construct with no further
initializer.  Arena back-references are modelled as subterms, so chains are
finite; the spec flags cyclic chains as an authoring bug outside the model. -/
inductive Expr where
  | par (l : Lit)
  | id (decl : Expr)
  | vardecl (isSet : Bool) (dom : Option Lit) (e0 : Option Expr)
  | other
deriving Repr

/-- Fixed-value resolver (`exp_is_fixed`, src/lib/builtins.cpp:1100):
follow identifier → declaration → initializer chains; a `par` node resolves
to itself, a non-set declaration with a literal domain resolves to that
domain literal, a declaration without those falls through to its
initializer, and anything else is not fixed (`NULL`, modelled as `none`). -/
def exp_is_fixed : Expr → Option Expr
  | .par l => some (.par l)
  | .id d => exp_is_fixed d
  | .vardecl isSet dom e0 =>
    match isSet, dom, e0 with
    | false, some d, _ => some (.par d)
    | _, _, some e => exp_is_fixed e
    | _, _, none => none
  | .other => none

/-- The `is_fixed` builtin (`b_is_fixed`, src/lib/builtins.cpp:1126):
true exactly when the resolver returns non-NULL. -/
def b_is_fixed (e : Expr) : Bool :=
  (exp_is_fixed e).isSome

/-- The `fix` builtin (`b_fix`, src/lib/builtins.cpp:1144): the resolved
constant, or `EvalError "expression is not fixed"` when the resolver
returns NULL. -/
def b_fix (e : Expr) : Except EvalErr Expr :=
  match exp_is_fixed e with
  | none => .error (.evalError "expression is not fixed")
  | some r => .ok r

/-- The `is_fixed` builtin on arrays (`b_is_fixed_array`,
src/lib/builtins.cpp:1131): an empty array returns true immediately;
otherwise every element must resolve. -/
def b_is_fixed_array (al : List Expr) : Bool :=
  match al with
  | [] => true
  | l => l.all fun e => (exp_is_fixed e).isSome

/-- The `fix` builtin on arrays (`b_fix_array`, src/lib/builtins.cpp:1165):
resolve each element left to right, throwing `EvalError` at the first
element that is not fixed; the result is the array of resolved constants
(the C++ wraps it in a new par-typed `ArrayLit`). -/
def b_fix_array (al : List Expr) : Except EvalErr (List Expr) :=
  al.mapM fun e =>
    match exp_is_fixed e with
    | none => Except.error (EvalErr.evalError "expression is not fixed")
    | some r => Except.ok r

/-- C8: whenever `is_fixed e` is false, `fix e` raises
`EvalError "expression is not fixed"`; whenever `is_fixed e` is true,
`fix e` returns the constant the resolver produced, without error. -/
theorem is_fixed_false_iff_fix_errors (e : Expr) :
    (b_is_fixed e = false →
      b_fix e = .error (.evalError "expression is not fixed")) ∧
    (b_is_fixed e = true → ∃ r, exp_is_fixed e = some r ∧ b_fix e = .ok r) := by
  constructor
  · intro h
    unfold b_is_fixed at h
    unfold b_fix
    cases hfix : exp_is_fixed e with
    | none => rfl
    | some r => rw [hfix] at h; simp at h
  · intro h
    unfold b_is_fixed at h
    cases hfix : exp_is_fixed e with
    | none => rw [hfix] at h; simp at h
    | some r => exact ⟨r, rfl, by unfold b_fix; rw [hfix]⟩

/-- C8 witness: a never-fixed expression (`Expr.other`) takes the error
branch, and a fixed one (an integer literal) resolves without error. -/
theorem is_fixed_fix_witness :
    b_fix Expr.other = .error (.evalError "expression is not fixed") ∧
    ∃ r, exp_is_fixed (Expr.par (Lit.int 3)) = some r ∧
      b_fix (Expr.par (Lit.int 3)) = .ok r :=
  ⟨(is_fixed_false_iff_fix_errors Expr.other).1 rfl,
   (is_fixed_false_iff_fix_errors (Expr.par (Lit.int 3))).2 rfl⟩

/-- C10: `is_fixed` of an array that materializes to the empty array is
true without inspecting any element, and `fix` of the empty array succeeds
with the empty (par) array. -/
theorem fixed_array_empty :
    b_is_fixed_array [] = true ∧ b_fix_array [] = .ok [] :=
  ⟨rfl, rfl⟩

/-- Modelled from the spec: the process-wide pseudo-random engine
(`rnd_generator`, src/lib/builtins.cpp:1784) is a mutable
`std::default_random_engine`; its state is modelled as a `Nat` threaded
explicitly through each sampling builtin. -/
abbrev RndEngine : Type := Nat

/-- The float `uniform` builtin (`b_uniform_float`,
src/lib/builtins.cpp:1808): if the lower bound exceeds the upper bound it
throws `EvalError` before touching the random engine; otherwise it draws
one sample.  `std::uniform_real_distribution` is outside the repository,
so the draw is modelled from the spec as a caller-supplied sampler
`sample lb ub g = (value, advanced engine)`. -/
def b_uniform_float (sample : ℚ → ℚ → RndEngine → ℚ × RndEngine)
    (lb ub : ℚ) (g : RndEngine) : Except EvalErr ℚ × RndEngine :=
  if lb > ub then
    (.error (.evalError
      ("lowerbound of uniform distribution \"" ++ toString lb ++
        "\" is higher than its upperbound: " ++ toString ub)), g)
  else
    let s := sample lb ub g
    (.ok s.1, s.2)

/-- The integer `uniform` builtin (`b_uniform_int`,
src/lib/builtins.cpp:1822), modelled like `b_uniform_float` with
`std::uniform_int_distribution` abstracted as a caller-supplied sampler. -/
def b_uniform_int (sample : Int → Int → RndEngine → Int × RndEngine)
    (lb ub : Int) (g : RndEngine) : Except EvalErr Int × RndEngine :=
  if lb > ub then
    (.error (.evalError
      ("lowerbound of uniform distribution \"" ++ toString lb ++
        "\" is higher than its upperbound: " ++ toString ub)), g)
  else
    let s := sample lb ub g
    (.ok s.1, s.2)

/-- C9: with `lb > ub`, both uniform builtins raise `EvalError` and return
the engine in its original state: the validation precedes any draw, for
every possible sampler behaviour and engine state. -/
theorem uniform_bad_bounds_error_no_sampling
    (sf : ℚ → ℚ → RndEngine → ℚ × RndEngine)
    (si : Int → Int → RndEngine → Int × RndEngine)
    (qlb qub : ℚ) (ilb iub : Int) (g gi : RndEngine)
    (hq : qlb > qub) (hi : ilb > iub) :
    ((b_uniform_float sf qlb qub g).1 = .error (.evalError
      ("lowerbound of uniform distribution \"" ++ toString qlb ++
        "\" is higher than its upperbound: " ++ toString qub)) ∧
      (b_uniform_float sf qlb qub g).2 = g) ∧
    ((b_uniform_int si ilb iub gi).1 = .error (.evalError
      ("lowerbound of uniform distribution \"" ++ toString ilb ++
        "\" is higher than its upperbound: " ++ toString iub)) ∧
      (b_uniform_int si ilb iub gi).2 = gi) := by
  unfold b_uniform_float b_uniform_int
  rw [if_pos hq, if_pos hi]
  exact ⟨⟨rfl, rfl⟩, ⟨rfl, rfl⟩⟩

/-- C9 witness: `uniform(5,1)` in both variants, with a concrete sampler
and engine state 7. -/
theorem uniform_bad_bounds_witness :
    (5 : ℚ) > 1 ∧ (5 : Int) > 1 ∧
    (((b_uniform_float (fun _ _ g => (0, g + 1)) 5 1 7).1 = .error (.evalError
      ("lowerbound of uniform distribution \"" ++ toString (5 : ℚ) ++
        "\" is higher than its upperbound: " ++ toString (1 : ℚ))) ∧
      (b_uniform_float (fun _ _ g => (0, g + 1)) 5 1 7).2 = 7) ∧
    ((b_uniform_int (fun _ _ g => (0, g + 1)) 5 1 7).1 = .error (.evalError
      ("lowerbound of uniform distribution \"" ++ toString (5 : Int) ++
        "\" is higher than its upperbound: " ++ toString (1 : Int))) ∧
      (b_uniform_int (fun _ _ g => (0, g + 1)) 5 1 7).2 = 7)) :=
  ⟨by norm_num, by norm_num,
    uniform_bad_bounds_error_no_sampling (fun _ _ g => (0, g + 1))
      (fun _ _ g => (0, g + 1)) 5 1 5 1 7 7 (by norm_num) (by norm_num)⟩

/-- The `discrete_distribution` builtin (`b_discrete_distribution`,
src/lib/builtins.cpp:2026): after checking the weight array is
1-dimensional (guaranteed here by the flat-list model), it samples
`std::discrete_distribution` over the weights and returns the sampled
index as an `IntVal` — with no adjustment.  `std::discrete_distribution`
is outside the repository and is modelled from the spec: a draw is a
0-based index `s < weights.length`, supplied as an argument standing for
the engine draw. -/
def b_discrete_distribution (weights : List Int) (s : Nat) : Int :=
  match weights with
  | _ => Int.ofNat s

/-- C3 counterexample: with the weight array `[1]` (length 1) the only
index `std::discrete_distribution` can produce is 0, and the builtin
returns 0, which does not lie in `[1, 1]` as the claim requires. -/
theorem discrete_distribution_not_one_based :
    b_discrete_distribution [1] 0 = 0 ∧
    ¬(1 ≤ b_discrete_distribution [1] 0) :=
  ⟨rfl, by decide⟩

/-- C3 (amended): the builtin returns the sampled index unadjusted, so for
every weight array of length n and every possible draw of the engine the
returned value lies in `[0, n-1]`. -/
theorem discrete_distribution_range (weights : List Int) (s : Nat)
    (hs : s < weights.length) :
    0 ≤ b_discrete_distribution weights s ∧
      b_discrete_distribution weights s ≤ (weights.length : Int) - 1 := by
  have hval : b_discrete_distribution weights s = Int.ofNat s := by
    cases weights <;> rfl
  rw [hval]
  exact ⟨Int.ofNat_nonneg s, by simp only [Int.ofNat_eq_natCast]; omega⟩

/-- C3 witness: weights `[2, 3]`, sampled index 1. -/
theorem discrete_distribution_range_witness :
    1 < ([(2 : Int), 3]).length ∧
    (0 ≤ b_discrete_distribution [2, 3] 1 ∧
      b_discrete_distribution [2, 3] 1 ≤ (([(2 : Int), 3]).length : Int) - 1) :=
  ⟨by decide, discrete_distribution_range [2, 3] 1 (by decide)⟩

/-- Rendering of one scalar element by `b_show_json_basic`
(src/lib/builtins.cpp:1324) when the element is an integer literal: the
`Printer` (outside src/lib) writes its decimal text. -/
def b_show_json_basic (v : Int) : String :=
  toString v

/-- Number of index values along one axis: `al->max(i) - al->min(i) + 1`. -/
def axisExtent (p : Int × Int) : Nat :=
  (p.2 - p.1 + 1).toNat

/-- Running products used by `strideTable`: `go acc [a, b, c] =
[acc*a, acc*a*b, acc*a*b*c]`. -/
def partialProds (acc : Nat) : List Nat → List Nat
  | [] => []
  | x :: xs => (acc * x) :: partialProds (acc * x) xs

/-- The per-axis stride table of `b_show_json`
(src/lib/builtins.cpp:1389): `dims` has one entry per axis except the
first; `dims[0]` is the extent of the last axis and `dims[i]` multiplies
in the extent of axis `d-1-i`, so the table holds the products of the
extents of the trailing axes. -/
def strideTable (axes : List (Int × Int)) : List Nat :=
  partialProds 1 (((axes.drop 1).map axisExtent).reverse)

/-- Opening brackets emitted before element `i`: one `[` for every stride
`d` with `i % d == 0`. -/
def jsonOpens (strides : List Nat) (i : Nat) : String :=
  strides.foldl (fun s d => if i % d == 0 then s ++ "[" else s) ""

/-- Closing brackets emitted after element `i`: one `]` for every stride
`d` with `i % d == d - 1`. -/
def jsonCloses (strides : List Nat) (i : Nat) : String :=
  strides.foldl (fun s d => if i % d == d - 1 then s ++ "]" else s) ""

/-- The array branch of `b_show_json` (src/lib/builtins.cpp:1377) on a
materialized integer array: one outer bracket pair, and for each element
in row-major order the stride-boundary brackets, the rendered element,
and the separator `", "` after every element but the last. -/
def b_show_json (axes : List (Int × Int)) (elems : List Int) : String :=
  "[" ++
    String.join ((List.range elems.length).map fun i =>
      jsonOpens (strideTable axes) i ++
        b_show_json_basic (elems.getD i 0) ++
        jsonCloses (strideTable axes) i ++
        (if i < elems.length - 1 then ", " else "")) ++
    "]"

/-- C4 counterexample: the 2×2 array `[1,2;3,4]` does not render as the
claimed text `[[1,2],[3,4]]`, because the element separator written by the
source is a comma followed by a space. -/
theorem show_json_2x2_not_compact :
    b_show_json [(1, 2), (1, 2)] [1, 2, 3, 4] ≠ "[[1,2],[3,4]]" := by
  decide

/-- C4 (amended): `showJSON([1,2;3,4])` renders exactly as
`[[1, 2], [3, 4]]` — nested brackets at the stride boundaries, with a
comma-space separator between consecutive elements. -/
theorem show_json_2x2 :
    b_show_json [(1, 2), (1, 2)] [1, 2, 3, 4] = "[[1, 2], [3, 4]]" := by
  decide

/-- The scan loop shared by `b_arg_min_int` (src/lib/builtins.cpp:134) and
`b_arg_min_float` (src/lib/builtins.cpp:166): best value `m` found so far
at absolute index `midx`, current absolute index `i`, updating only on a
strictly smaller element. -/
def argMinLoop {α : Type} [LinearOrder α] : List α → α → Nat → Nat → Nat
  | [], _, midx, _ => midx
  | x :: xs, m, midx, i =>
    if x < m then argMinLoop xs x i (i + 1) else argMinLoop xs m midx (i + 1)

/-- The scan loop shared by `b_arg_max_int` (src/lib/builtins.cpp:150) and
`b_arg_max_float` (src/lib/builtins.cpp:182), updating only on a strictly
greater element. -/
def argMaxLoop {α : Type} [LinearOrder α] : List α → α → Nat → Nat → Nat
  | [], _, midx, _ => midx
  | x :: xs, m, midx, i =>
    if m < x then argMaxLoop xs x i (i + 1) else argMaxLoop xs m midx (i + 1)

/-- The `arg_min` builtin on integer arrays (`b_arg_min_int`,
src/lib/builtins.cpp:134): `ResultUndefinedError` on the empty array,
otherwise the loop result plus one (1-based position). -/
def b_arg_min_int (al : List Int) : Except EvalErr Int :=
  match al with
  | [] => .error (.resultUndefined "argmin of empty array is undefined")
  | x :: xs => .ok (Int.ofNat (argMinLoop xs x 0 1) + 1)

/-- The `arg_max` builtin on integer arrays (`b_arg_max_int`,
src/lib/builtins.cpp:150). -/
def b_arg_max_int (al : List Int) : Except EvalErr Int :=
  match al with
  | [] => .error (.resultUndefined "argmax of empty array is undefined")
  | x :: xs => .ok (Int.ofNat (argMaxLoop xs x 0 1) + 1)

/-- The `arg_min` builtin on float arrays (`b_arg_min_float`,
src/lib/builtins.cpp:166). -/
def b_arg_min_float (al : List ℚ) : Except EvalErr Int :=
  match al with
  | [] => .error (.resultUndefined "argmin of empty array is undefined")
  | x :: xs => .ok (Int.ofNat (argMinLoop xs x 0 1) + 1)

/-- The `arg_max` builtin on float arrays (`b_arg_max_float`,
src/lib/builtins.cpp:182). -/
def b_arg_max_float (al : List ℚ) : Except EvalErr Int :=
  match al with
  | [] => .error (.resultUndefined "argmax of empty array is undefined")
  | x :: xs => .ok (Int.ofNat (argMaxLoop xs x 0 1) + 1)

/-- The result is ok of one plus the 0-based position of the first
occurrence of the minimum of `l`: the element there is a minimum, and
every earlier element is strictly greater. -/
def isFirstMinPos {α : Type} [LinearOrder α]
    (l : List α) (res : Except EvalErr Int) : Prop :=
  ∃ k, ∃ hk : k < l.length,
    res = .ok ((k : Int) + 1) ∧
    (∀ j, ∀ hj : j < l.length, l.get ⟨k, hk⟩ ≤ l.get ⟨j, hj⟩) ∧
    (∀ j, ∀ hj : j < k, l.get ⟨k, hk⟩ < l.get ⟨j, Nat.lt_trans hj hk⟩)

/-- The result is ok of one plus the 0-based position of the first
occurrence of the maximum of `l`. -/
def isFirstMaxPos {α : Type} [LinearOrder α]
    (l : List α) (res : Except EvalErr Int) : Prop :=
  ∃ k, ∃ hk : k < l.length,
    res = .ok ((k : Int) + 1) ∧
    (∀ j, ∀ hj : j < l.length, l.get ⟨j, hj⟩ ≤ l.get ⟨k, hk⟩) ∧
    (∀ j, ∀ hj : j < k, l.get ⟨j, Nat.lt_trans hj hk⟩ < l.get ⟨k, hk⟩)

theorem argMinLoop_spec {α : Type} [LinearOrder α]
    (xs : List α) (m : α) (midx i : Nat) :
    (argMinLoop xs m midx i = midx ∧ ∀ y ∈ xs, m ≤ y) ∨
    (∃ j, ∃ hj : j < xs.length, argMinLoop xs m midx i = i + j ∧
      xs.get ⟨j, hj⟩ < m ∧ (∀ y ∈ xs, xs.get ⟨j, hj⟩ ≤ y) ∧
      ∀ k, ∀ hk : k < j, xs.get ⟨j, hj⟩ < xs.get ⟨k, Nat.lt_trans hk hj⟩) := by
  induction xs generalizing m midx i with
  | nil =>
    left
    exact ⟨rfl, fun y hy => absurd hy (List.not_mem_nil y)⟩
  | cons x xs ih =>
    by_cases hx : x < m
    · have hred : argMinLoop (x :: xs) m midx i = argMinLoop xs x i (i + 1) := by
        simp [argMinLoop, hx]
      rcases ih x i (i + 1) with ⟨heq, hall⟩ | ⟨j, hj, heq, hlt, hall, hfirst⟩
      · right
        refine ⟨0, Nat.succ_pos xs.length, ?_, hx, ?_, ?_⟩
        · rw [hred, heq]; omega
        · intro y hy
          rcases List.mem_cons.mp hy with rfl | hy2
          · exact le_refl y
          · exact hall y hy2
        · intro k hk
          exact absurd hk (Nat.not_lt_zero k)
      · right
        refine ⟨j + 1, Nat.succ_lt_succ hj, ?_, lt_trans hlt hx, ?_, ?_⟩
        · rw [hred, heq]; omega
        · intro y hy
          rcases List.mem_cons.mp hy with rfl | hy2
          · exact le_of_lt hlt
          · exact hall y hy2
        · intro k hk
          cases k with
          | zero => exact hlt
          | succ t => exact hfirst t (Nat.lt_of_succ_lt_succ hk)
    · have hm : m ≤ x := not_lt.mp hx
      have hred : argMinLoop (x :: xs) m midx i = argMinLoop xs m midx (i + 1) := by
        simp [argMinLoop, hx]
      rcases ih m midx (i + 1) with ⟨heq, hall⟩ | ⟨j, hj, heq, hlt, hall, hfirst⟩
      · left
        refine ⟨by rw [hred, heq], ?_⟩
        intro y hy
        rcases List.mem_cons.mp hy with rfl | hy2
        · exact hm
        · exact hall y hy2
      · right
        refine ⟨j + 1, Nat.succ_lt_succ hj, ?_, hlt, ?_, ?_⟩
        · rw [hred, heq]; omega
        · intro y hy
          rcases List.mem_cons.mp hy with rfl | hy2
          · exact le_trans (le_of_lt hlt) hm
          · exact hall y hy2
        · intro k hk
          cases k with
          | zero => exact lt_of_lt_of_le hlt hm
          | succ t => exact hfirst t (Nat.lt_of_succ_lt_succ hk)

theorem argMaxLoop_spec {α : Type} [LinearOrder α]
    (xs : List α) (m : α) (midx i : Nat) :
    (argMaxLoop xs m midx i = midx ∧ ∀ y ∈ xs, y ≤ m) ∨
    (∃ j, ∃ hj : j < xs.length, argMaxLoop xs m midx i = i + j ∧
      m < xs.get ⟨j, hj⟩ ∧ (∀ y ∈ xs, y ≤ xs.get ⟨j, hj⟩) ∧
      ∀ k, ∀ hk : k < j, xs.get ⟨k, Nat.lt_trans hk hj⟩ < xs.get ⟨j, hj⟩) := by
  induction xs generalizing m midx i with
  | nil =>
    left
    exact ⟨rfl, fun y hy => absurd hy (List.not_mem_nil y)⟩
  | cons x xs ih =>
    by_cases hx : m < x
    · have hred : argMaxLoop (x :: xs) m midx i = argMaxLoop xs x i (i + 1) := by
        simp [argMaxLoop, hx]
      rcases ih x i (i + 1) with ⟨heq, hall⟩ | ⟨j, hj, heq, hlt, hall, hfirst⟩
      · right
        refine ⟨0, Nat.succ_pos xs.length, ?_, hx, ?_, ?_⟩
        · rw [hred, heq]; omega
        · intro y hy
          rcases List.mem_cons.mp hy with rfl | hy2
          · exact le_refl y
          · exact hall y hy2
        · intro k hk
          exact absurd hk (Nat.not_lt_zero k)
      · right
        refine ⟨j + 1, Nat.succ_lt_succ hj, ?_, lt_trans hx hlt, ?_, ?_⟩
        · rw [hred, heq]; omega
        · intro y hy
          rcases List.mem_cons.mp hy with rfl | hy2
          · exact le_of_lt hlt
          · exact hall y hy2
        · intro k hk
          cases k with
          | zero => exact hlt
          | succ t => exact hfirst t (Nat.lt_of_succ_lt_succ hk)
    · have hm : x ≤ m := not_lt.mp hx
      have hred : argMaxLoop (x :: xs) m midx i = argMaxLoop xs m midx (i + 1) := by
        simp [argMaxLoop, hx]
      rcases ih m midx (i + 1) with ⟨heq, hall⟩ | ⟨j, hj, heq, hlt, hall, hfirst⟩
      · left
        refine ⟨by rw [hred, heq], ?_⟩
        intro y hy
        rcases List.mem_cons.mp hy with rfl | hy2
        · exact hm
        · exact hall y hy2
      · right
        refine ⟨j + 1, Nat.succ_lt_succ hj, ?_, hlt, ?_, ?_⟩
        · rw [hred, heq]; omega
        · intro y hy
          rcases List.mem_cons.mp hy with rfl | hy2
          · exact le_trans hm (le_of_lt hlt)
          · exact hall y hy2
        · intro k hk
          cases k with
          | zero => exact lt_of_le_of_lt hm hlt
          | succ t => exact hfirst t (Nat.lt_of_succ_lt_succ hk)

theorem argMinLoop_firstMin {α : Type} [LinearOrder α] (x : α) (xs : List α) :
    isFirstMinPos (x :: xs) (Except.ok (Int.ofNat (argMinLoop xs x 0 1) + 1)) := by
  rcases argMinLoop_spec xs x 0 1 with ⟨heq, hall⟩ | ⟨j, hj, heq, hlt, hall, hfirst⟩
  · refine ⟨0, Nat.succ_pos xs.length, ?_, ?_, ?_⟩
    · rw [heq]; norm_num
    · intro j2 hj2
      cases j2 with
      | zero => exact le_refl x
      | succ t => exact hall _ (List.get_mem xs t (Nat.lt_of_succ_lt_succ hj2))
    · intro j2 hj2
      exact absurd hj2 (Nat.not_lt_zero j2)
  · refine ⟨j + 1, Nat.succ_lt_succ hj, ?_, ?_, ?_⟩
    · rw [heq]
      congr 1
      simp only [Int.ofNat_eq_natCast]
      push_cast
      ring
    · intro j2 hj2
      cases j2 with
      | zero => exact le_of_lt hlt
      | succ t => exact hall _ (List.get_mem xs t (Nat.lt_of_succ_lt_succ hj2))
    · intro j2 hj2
      cases j2 with
      | zero => exact hlt
      | succ t => exact hfirst t (Nat.lt_of_succ_lt_succ hj2)

theorem argMaxLoop_firstMax {α : Type} [LinearOrder α] (x : α) (xs : List α) :
    isFirstMaxPos (x :: xs) (Except.ok (Int.ofNat (argMaxLoop xs x 0 1) + 1)) := by
  rcases argMaxLoop_spec xs x 0 1 with ⟨heq, hall⟩ | ⟨j, hj, heq, hlt, hall, hfirst⟩
  · refine ⟨0, Nat.succ_pos xs.length, ?_, ?_, ?_⟩
    · rw [heq]; norm_num
    · intro j2 hj2
      cases j2 with
      | zero => exact le_refl x
      | succ t => exact hall _ (List.get_mem xs t (Nat.lt_of_succ_lt_succ hj2))
    · intro j2 hj2
      exact absurd hj2 (Nat.not_lt_zero j2)
  · refine ⟨j + 1, Nat.succ_lt_succ hj, ?_, ?_, ?_⟩
    · rw [heq]
      congr 1
      simp only [Int.ofNat_eq_natCast]
      push_cast
      ring
    · intro j2 hj2
      cases j2 with
      | zero => exact le_of_lt hlt
      | succ t => exact hall _ (List.get_mem xs t (Nat.lt_of_succ_lt_succ hj2))
    · intro j2 hj2
      cases j2 with
      | zero => exact hlt
      | succ t => exact hfirst t (Nat.lt_of_succ_lt_succ hj2)

/-- C6: on empty arrays all four `arg_min`/`arg_max` builtins raise
`ResultUndefinedError`; on a non-empty integer or float array each returns
the 1-based position of the first occurrence of the minimum (resp.
maximum), found by a left-to-right scan with strictly-less (resp.
strictly-greater) comparisons. -/
theorem arg_min_arg_max_first_extremal
    (xi : Int) (li : List Int) (xf : ℚ) (lf : List ℚ) :
    b_arg_min_int [] = .error (.resultUndefined "argmin of empty array is undefined") ∧
    b_arg_max_int [] = .error (.resultUndefined "argmax of empty array is undefined") ∧
    b_arg_min_float [] = .error (.resultUndefined "argmin of empty array is undefined") ∧
    b_arg_max_float [] = .error (.resultUndefined "argmax of empty array is undefined") ∧
    isFirstMinPos (xi :: li) (b_arg_min_int (xi :: li)) ∧
    isFirstMaxPos (xi :: li) (b_arg_max_int (xi :: li)) ∧
    isFirstMinPos (xf :: lf) (b_arg_min_float (xf :: lf)) ∧
    isFirstMaxPos (xf :: lf) (b_arg_max_float (xf :: lf)) :=
  ⟨rfl, rfl, rfl, rfl,
    argMinLoop_firstMin xi li, argMaxLoop_firstMax xi li,
    argMinLoop_firstMin xf lf, argMaxLoop_firstMax xf lf⟩

/-- Modelled from the spec: `std::stable_sort` (outside the repository) on
the index vector `[0, .., n-1]` with the key-only comparator
`order[i] < order[j]` of `b_sort_by_int`/`b_sort_by_float`
(src/lib/builtins.cpp:1716).  A stable sort under a total preorder has a
unique result, so it is modelled by insertion sort under the induced
non-strict comparison. -/
def stableSortIdx {α : Type} [LinearOrder α] (key : Nat → α) (n : Nat) : List Nat :=
  List.insertionSort (fun i j => key i ≤ key j) (List.range n)

/-- The `sort_by` builtin on integer keys (`b_sort_by_int`,
src/lib/builtins.cpp:1708): stably sort the indices `0..order.length-1` by
their key in `order`, then read the value array through the sorted index
vector. -/
def b_sort_by_int (al : List Int) (order : List Int) : List Int :=
  (stableSortIdx (fun i => order.getD i 0) order.length).map fun i => al.getD i 0

/-- The `sort_by` builtin on float keys (`b_sort_by_float`,
src/lib/builtins.cpp:1734). -/
def b_sort_by_float (al : List ℚ) (order : List ℚ) : List ℚ :=
  (stableSortIdx (fun i => order.getD i 0) order.length).map fun i => al.getD i 0

theorem orderedInsert_stable {α : Type} [LinearOrder α] (key : Nat → α)
    (x : Nat) (s : List Nat)
    (hs : s.Pairwise fun i j => key i ≤ key j ∧ (key i = key j → i < j))
    (hx : ∀ y ∈ s, x < y) :
    (List.orderedInsert (fun i j => key i ≤ key j) x s).Pairwise
      fun i j => key i ≤ key j ∧ (key i = key j → i < j) := by
  induction s with
  | nil => simp
  | cons y ys ih =>
    rcases List.pairwise_cons.mp hs with ⟨hy, hys⟩
    by_cases hxy : key x ≤ key y
    · rw [List.orderedInsert, if_pos hxy]
      refine List.pairwise_cons.mpr ⟨?_, hs⟩
      intro z hz
      rcases List.mem_cons.mp hz with rfl | hz2
      · exact ⟨hxy, fun _ => hx z (List.mem_cons_self z ys)⟩
      · exact ⟨le_trans hxy (hy z hz2).1, fun _ => hx z (List.mem_cons_of_mem y hz2)⟩
    · rw [List.orderedInsert, if_neg hxy]
      have hyx : key y < key x := not_le.mp hxy
      refine List.pairwise_cons.mpr ⟨?_, ?_⟩
      · intro z hz
        rcases (List.mem_orderedInsert _).mp hz with rfl | hz2
        · exact ⟨le_of_lt hyx, fun he => absurd he (ne_of_lt hyx)⟩
        · exact hy z hz2
      · exact ih hys fun z hz => hx z (List.mem_cons_of_mem y hz)

theorem insertionSort_stable {α : Type} [LinearOrder α] (key : Nat → α)
    (l : List Nat) (hl : l.Pairwise (· < ·)) :
    (List.insertionSort (fun i j => key i ≤ key j) l).Pairwise
      fun i j => key i ≤ key j ∧ (key i = key j → i < j) := by
  induction l with
  | nil => simp
  | cons x xs ih =>
    rcases List.pairwise_cons.mp hl with ⟨hx, hxs⟩
    rw [List.insertionSort]
    refine orderedInsert_stable key x _ (ih hxs) ?_
    intro y hy
    exact hx y ((List.perm_insertionSort _ xs).subset hy)

theorem stableSortIdx_spec {α : Type} [LinearOrder α] (key : Nat → α) (n : Nat) :
    (stableSortIdx key n).Perm (List.range n) ∧
    (stableSortIdx key n).Pairwise
      fun i j => key i ≤ key j ∧ (key i = key j → i < j) :=
  ⟨List.perm_insertionSort _ _,
    insertionSort_stable key _ (List.pairwise_lt_range n)⟩

theorem map_getD_range {α : Type} (al : List α) (d : α) :
    (List.range al.length).map (fun i => al.getD i d) = al := by
  apply List.ext_getElem
  · simp
  · intro n h1 h2
    rw [List.getElem_map]
    rw [List.getElem_range]
    exact List.getD_eq_getElem al d h2

theorem sort_by_spec_generic {α : Type} [LinearOrder α]
    (al order : List α) (d : α) (h : al.length = order.length) :
    ((stableSortIdx (fun i => order.getD i d) order.length).map
        fun i => al.getD i d).Perm al ∧
    ∃ p : List Nat, p.Perm (List.range order.length) ∧
      (stableSortIdx (fun i => order.getD i d) order.length).map
          (fun i => al.getD i d) = p.map (fun i => al.getD i d) ∧
      p.Pairwise fun i j => order.getD i d ≤ order.getD j d ∧
        (order.getD i d = order.getD j d → i < j) := by
  obtain ⟨hperm, hpair⟩ := stableSortIdx_spec (fun i => order.getD i d) order.length
  have hmap : (List.range order.length).map (fun i => al.getD i d) = al := by
    rw [← h]
    exact map_getD_range al d
  refine ⟨?_, stableSortIdx (fun i => order.getD i d) order.length, hperm, rfl, hpair⟩
  have hp := hperm.map fun i => al.getD i d
  rw [hmap] at hp
  exact hp

/-- C7: `sort_by` returns a permutation of the value array that is ordered
by the parallel key array, and stably so: the result reads the values
through an index permutation `p` along which keys are non-decreasing and
equal keys keep their original (index) order. -/
theorem sort_by_stable (ali orderi : List Int) (alf orderf : List ℚ)
    (hi : ali.length = orderi.length) (hf : alf.length = orderf.length) :
    ((b_sort_by_int ali orderi).Perm ali ∧
      ∃ p : List Nat, p.Perm (List.range orderi.length) ∧
        b_sort_by_int ali orderi = p.map (fun i => ali.getD i 0) ∧
        p.Pairwise fun i j => orderi.getD i 0 ≤ orderi.getD j 0 ∧
          (orderi.getD i 0 = orderi.getD j 0 → i < j)) ∧
    ((b_sort_by_float alf orderf).Perm alf ∧
      ∃ p : List Nat, p.Perm (List.range orderf.length) ∧
        b_sort_by_float alf orderf = p.map (fun i => alf.getD i 0) ∧
        p.Pairwise fun i j => orderf.getD i 0 ≤ orderf.getD j 0 ∧
          (orderf.getD i 0 = orderf.getD j 0 → i < j)) :=
  ⟨sort_by_spec_generic ali orderi 0 hi, sort_by_spec_generic alf orderf 0 hf⟩

/-- C7 witness: value arrays of length 3 with keys containing a tie. -/
theorem sort_by_stable_witness :
    ([(10 : Int), 20, 30]).length = ([(2 : Int), 1, 2]).length ∧
    ([(10 : ℚ), 20, 30]).length = ([(2 : ℚ), 1, 2]).length ∧
    (((b_sort_by_int [10, 20, 30] [2, 1, 2]).Perm [10, 20, 30] ∧
      ∃ p : List Nat, p.Perm (List.range ([(2 : Int), 1, 2]).length) ∧
        b_sort_by_int [10, 20, 30] [2, 1, 2] =
          p.map (fun i => ([(10 : Int), 20, 30]).getD i 0) ∧
        p.Pairwise fun i j =>
          ([(2 : Int), 1, 2]).getD i 0 ≤ ([(2 : Int), 1, 2]).getD j 0 ∧
          (([(2 : Int), 1, 2]).getD i 0 = ([(2 : Int), 1, 2]).getD j 0 → i < j)) ∧
    ((b_sort_by_float [10, 20, 30] [2, 1, 2]).Perm [10, 20, 30] ∧
      ∃ p : List Nat, p.Perm (List.range ([(2 : ℚ), 1, 2]).length) ∧
        b_sort_by_float [10, 20, 30] [2, 1, 2] =
          p.map (fun i => ([(10 : ℚ), 20, 30]).getD i 0) ∧
        p.Pairwise fun i j =>
          ([(2 : ℚ), 1, 2]).getD i 0 ≤ ([(2 : ℚ), 1, 2]).getD j 0 ∧
          (([(2 : ℚ), 1, 2]).getD i 0 = ([(2 : ℚ), 1, 2]).getD j 0 → i < j))) :=
  ⟨rfl, rfl, sort_by_stable [10, 20, 30] [2, 1, 2] [10, 20, 30] [2, 1, 2] rfl rfl⟩

/-- Modelled from the spec: the largest finite value of the checked 64-bit
`IntVal` (`IntVal::maxint()`), used by `b_compute_div_bounds` only as the
initial accumulator of the corner scan; no theorem below depends on its
magnitude. -/
def IntVal.maxint : Int := 2 ^ 63 - 1

/-- Modelled from the spec: the smallest finite `IntVal`
(`IntVal::minint()`). -/
def IntVal.minint : Int := -(2 ^ 63)

/-- The sign-consistent subranges produced by the `Ranges::Diff` iterator
of `b_compute_div_bounds` (src/lib/builtins.cpp:910): the canonical range
list of `[ly,uy] \ [0,0]`. -/
def divSubranges (ly uy : Int) : List (Int × Int) :=
  if uy < ly then []
  else if uy < 0 ∨ 0 < ly then [(ly, uy)]
  else (if ly ≤ -1 then [(ly, -1)] else []) ++ (if 1 ≤ uy then [(1, uy)] else [])

/-- Minimum of the four corner quotients of dividend bounds `[lx,ux]`
against one divisor subrange `[a,b]`; C++ `IntVal` division is checked
`long long` division, i.e. truncation toward zero (`Int.tdiv`). -/
def cornerMin (lx ux a b : Int) : Int :=
  min (min (lx.tdiv a) (lx.tdiv b)) (min (ux.tdiv a) (ux.tdiv b))

/-- Maximum of the four corner quotients. -/
def cornerMax (lx ux a b : Int) : Int :=
  max (max (lx.tdiv a) (lx.tdiv b)) (max (ux.tdiv a) (ux.tdiv b))

/-- The finite-bounds branch of `b_compute_div_bounds`
(src/lib/builtins.cpp:897): starting from the `maxint`/`minint`
accumulators, fold min/max over the four corner quotients of each of the
at-most-two subranges of the divisor interval with zero removed (the
source unrolls the iterator into exactly these two steps); the result set
is the interval from the accumulated min to the accumulated max. -/
def b_compute_div_bounds (lx ux ly uy : Int) : Int × Int :=
  match divSubranges ly uy with
  | [] => (IntVal.maxint, IntVal.minint)
  | [(a, b)] =>
    (min IntVal.maxint (cornerMin lx ux a b),
     max IntVal.minint (cornerMax lx ux a b))
  | (a, b) :: (c, d) :: _ =>
    (min (min IntVal.maxint (cornerMin lx ux a b)) (cornerMin lx ux c d),
     max (max IntVal.minint (cornerMax lx ux a b)) (cornerMax lx ux c d))

theorem tdiv_mono_left {a b y : Int} (hy : 0 < y) (hab : a ≤ b) :
    a.tdiv y ≤ b.tdiv y := by
  rcases le_or_lt 0 a with ha | ha
  · rw [Int.tdiv_eq_ediv ha (le_of_lt hy), Int.tdiv_eq_ediv (le_trans ha hab) (le_of_lt hy)]
    exact Int.ediv_le_ediv hy hab
  · rcases le_or_lt b 0 with hb | hb
    · have h1 : (-b).tdiv y ≤ (-a).tdiv y := by
        rw [Int.tdiv_eq_ediv (by omega) (le_of_lt hy),
          Int.tdiv_eq_ediv (by omega) (le_of_lt hy)]
        exact Int.ediv_le_ediv hy (by omega)
      rw [Int.neg_tdiv, Int.neg_tdiv] at h1
      omega
    · have h1 : 0 ≤ b.tdiv y := Int.tdiv_nonneg (le_of_lt hb) (le_of_lt hy)
      have h2 : 0 ≤ (-a).tdiv y := Int.tdiv_nonneg (by omega) (le_of_lt hy)
      rw [Int.neg_tdiv] at h2
      omega

theorem tdiv_antitone_right {x a b : Int} (hx : 0 ≤ x) (ha : 0 < a) (hab : a ≤ b) :
    x.tdiv b ≤ x.tdiv a := by
  lift x to ℕ using hx with m
  lift a to ℕ using (by omega) with p
  lift b to ℕ using (by omega) with q
  rw [← Int.ofNat_tdiv, ← Int.ofNat_tdiv]
  exact_mod_cast Nat.div_le_div_left (by exact_mod_cast hab) (by exact_mod_cast ha)

theorem tdiv_mono_right_nonpos {x a b : Int} (hx : x ≤ 0) (ha : 0 < a) (hab : a ≤ b) :
    x.tdiv a ≤ x.tdiv b := by
  have h := tdiv_antitone_right (x := -x) (by omega) ha hab
  rw [Int.neg_tdiv, Int.neg_tdiv] at h
  omega

theorem corner_sound_pos {lx ux a b x y : Int} (ha : 0 < a) (hy1 : a ≤ y)
    (hy2 : y ≤ b) (hx1 : lx ≤ x) (hx2 : x ≤ ux) :
    cornerMin lx ux a b ≤ x.tdiv y ∧ x.tdiv y ≤ cornerMax lx ux a b := by
  have hy : 0 < y := lt_of_lt_of_le ha hy1
  constructor
  · have h1 : lx.tdiv y ≤ x.tdiv y := tdiv_mono_left hy hx1
    have h2 : min (lx.tdiv a) (lx.tdiv b) ≤ lx.tdiv y := by
      rcases le_or_lt 0 lx with hlx | hlx
      · exact le_trans (min_le_right _ _) (tdiv_antitone_right hlx hy hy2)
      · exact le_trans (min_le_left _ _) (tdiv_mono_right_nonpos (le_of_lt hlx) ha hy1)
    calc cornerMin lx ux a b ≤ min (lx.tdiv a) (lx.tdiv b) := min_le_left _ _
      _ ≤ lx.tdiv y := h2
      _ ≤ x.tdiv y := h1
  · have h1 : x.tdiv y ≤ ux.tdiv y := tdiv_mono_left hy hx2
    have h2 : ux.tdiv y ≤ max (ux.tdiv a) (ux.tdiv b) := by
      rcases le_or_lt 0 ux with hux | hux
      · exact le_trans (tdiv_antitone_right hux ha hy1) (le_max_left _ _)
      · exact le_trans (tdiv_mono_right_nonpos (le_of_lt hux) hy hy2) (le_max_right _ _)
    calc x.tdiv y ≤ ux.tdiv y := h1
      _ ≤ max (ux.tdiv a) (ux.tdiv b) := h2
      _ ≤ cornerMax lx ux a b := le_max_right _ _

theorem corner_sound_neg {lx ux a b x y : Int} (hb : b < 0) (hy1 : a ≤ y)
    (hy2 : y ≤ b) (hx1 : lx ≤ x) (hx2 : x ≤ ux) :
    cornerMin lx ux a b ≤ x.tdiv y ∧ x.tdiv y ≤ cornerMax lx ux a b := by
  have h := @corner_sound_pos lx ux (-b) (-a) x (-y)
    (by omega) (by omega) (by omega) hx1 hx2
  rw [Int.tdiv_neg] at h
  have hmin : cornerMin lx ux (-b) (-a) = -(cornerMax lx ux a b) := by
    unfold cornerMin cornerMax
    rw [Int.tdiv_neg lx b, Int.tdiv_neg lx a, Int.tdiv_neg ux b, Int.tdiv_neg ux a]
    omega
  have hmax : cornerMax lx ux (-b) (-a) = -(cornerMin lx ux a b) := by
    unfold cornerMin cornerMax
    rw [Int.tdiv_neg lx b, Int.tdiv_neg lx a, Int.tdiv_neg ux b, Int.tdiv_neg ux a]
    omega
  rw [hmin, hmax] at h
  omega

theorem divSubranges_negOnly {ly uy : Int} (h1 : ly ≤ uy) (h2 : uy < 0) :
    divSubranges ly uy = [(ly, uy)] := by
  unfold divSubranges
  rw [if_neg (by omega), if_pos (Or.inl h2)]

theorem divSubranges_posOnly {ly uy : Int} (h1 : ly ≤ uy) (h2 : 0 < ly) :
    divSubranges ly uy = [(ly, uy)] := by
  unfold divSubranges
  rw [if_neg (by omega), if_pos (Or.inr h2)]

theorem divSubranges_negZero {ly uy : Int} (h2 : ly ≤ -1) (h3 : uy = 0) :
    divSubranges ly uy = [(ly, -1)] := by
  unfold divSubranges
  rw [if_neg (by omega), if_neg (by omega), if_pos h2, if_neg (by omega)]
  rfl

theorem divSubranges_zeroPos {ly uy : Int} (h2 : ly = 0) (h3 : 1 ≤ uy) :
    divSubranges ly uy = [(1, uy)] := by
  unfold divSubranges
  rw [if_neg (by omega), if_neg (by omega), if_neg (by omega), if_pos h3]
  rfl

theorem divSubranges_both {ly uy : Int} (h2 : ly ≤ -1) (h3 : 1 ≤ uy) :
    divSubranges ly uy = [(ly, -1), (1, uy)] := by
  unfold divSubranges
  rw [if_neg (by omega), if_neg (by omega), if_pos h2, if_pos h3]
  rfl

theorem b_compute_div_bounds_single {lx ux ly uy a b : Int}
    (h : divSubranges ly uy = [(a, b)]) :
    b_compute_div_bounds lx ux ly uy =
      (min IntVal.maxint (cornerMin lx ux a b),
       max IntVal.minint (cornerMax lx ux a b)) := by
  unfold b_compute_div_bounds
  rw [h]

theorem b_compute_div_bounds_pair {lx ux ly uy a b c d : Int}
    (h : divSubranges ly uy = [(a, b), (c, d)]) :
    b_compute_div_bounds lx ux ly uy =
      (min (min IntVal.maxint (cornerMin lx ux a b)) (cornerMin lx ux c d),
       max (max IntVal.minint (cornerMax lx ux a b)) (cornerMax lx ux c d)) := by
  unfold b_compute_div_bounds
  rw [h]

/-- C1: the division bounds computed by `b_compute_div_bounds` from finite
dividend bounds `[lx,ux]` and finite divisor bounds `[ly,uy]` (with the
singleton zero removed from the divisor interval) are sound: for every
concrete `x ∈ [lx,ux]` and `y ∈ [ly,uy]` with `y ≠ 0`, the truncating
quotient `x div y` lies between the computed lower and upper bound. -/
theorem compute_div_bounds_sound (lx ux ly uy x y : Int)
    (hx1 : lx ≤ x) (hx2 : x ≤ ux) (hy1 : ly ≤ y) (hy2 : y ≤ uy) (hy0 : y ≠ 0) :
    (b_compute_div_bounds lx ux ly uy).1 ≤ x.tdiv y ∧
      x.tdiv y ≤ (b_compute_div_bounds lx ux ly uy).2 := by
  have hlu : ly ≤ uy := le_trans hy1 hy2
  rcases lt_or_gt_of_ne hy0 with hneg | hpos
  · have hly : ly ≤ -1 := by omega
    rcases lt_or_le uy 0 with huy | huy
    · have hc := corner_sound_neg huy hy1 hy2 hx1 hx2
      rw [b_compute_div_bounds_single (divSubranges_negOnly hlu huy)]
      exact ⟨le_trans (min_le_right _ _) hc.1, le_trans hc.2 (le_max_right _ _)⟩
    · have hc := @corner_sound_neg lx ux ly (-1) x y
        (by omega) hy1 (by omega) hx1 hx2
      rcases lt_or_le uy 1 with huy1 | huy1
      · have huy0 : uy = 0 := by omega
        rw [b_compute_div_bounds_single (divSubranges_negZero hly huy0)]
        exact ⟨le_trans (min_le_right _ _) hc.1, le_trans hc.2 (le_max_right _ _)⟩
      · rw [b_compute_div_bounds_pair (divSubranges_both hly huy1)]
        refine ⟨le_trans (le_trans (min_le_left _ _) (min_le_right _ _)) hc.1, ?_⟩
        exact le_trans hc.2 (le_trans (le_max_right _ _) (le_max_left _ _))
  · have huy : 1 ≤ uy := by omega
    rcases lt_or_le 0 ly with hly | hly
    · have hc := corner_sound_pos hly hy1 hy2 hx1 hx2
      rw [b_compute_div_bounds_single (divSubranges_posOnly hlu hly)]
      exact ⟨le_trans (min_le_right _ _) hc.1, le_trans hc.2 (le_max_right _ _)⟩
    · have hc := @corner_sound_pos lx ux 1 uy x y
        one_pos (by omega) hy2 hx1 hx2
      rcases lt_or_le ly 0 with hly1 | hly1
      · rw [b_compute_div_bounds_pair (divSubranges_both (by omega) huy)]
        refine ⟨le_trans (min_le_right _ _) hc.1, ?_⟩
        exact le_trans hc.2 (le_max_right _ _)
      · have hly0 : ly = 0 := by omega
        rw [b_compute_div_bounds_single (divSubranges_zeroPos hly0 huy)]
        exact ⟨le_trans (min_le_right _ _) hc.1, le_trans hc.2 (le_max_right _ _)⟩

/-- C1 witness: dividend bounds `[-7, 5]`, divisor bounds `[-3, 2]`, at the
concrete point `x = -7`, `y = 2`. -/
theorem compute_div_bounds_sound_witness :
    ((-7 : Int) ≤ -7 ∧ (-7 : Int) ≤ 5 ∧ (-3 : Int) ≤ 2 ∧ (2 : Int) ≤ 2 ∧ (2 : Int) ≠ 0) ∧
    ((b_compute_div_bounds (-7) 5 (-3) 2).1 ≤ Int.tdiv (-7) 2 ∧
      Int.tdiv (-7) 2 ≤ (b_compute_div_bounds (-7) 5 (-3) 2).2) :=
  ⟨⟨by norm_num, by norm_num, by norm_num, by norm_num, by norm_num⟩,
    compute_div_bounds_sound (-7) 5 (-3) 2 (-7) 2 (by norm_num) (by norm_num)
      (by norm_num) (by norm_num) (by norm_num)⟩

end MiniZinc
